import Mathlib

/-!
Shallow embedding of the Proclens dashboard logic: the process-table
search/sort/paginate pipeline (ProcessTable), the data provider with its
synthetic fallback and update heuristic (ProcessProvider), and the query
submission flow (QueryInput).  JavaScript strings are modelled as lists of
UTF-16 code units (`List Nat`); JavaScript numbers holding process metrics
are modelled as rationals; host APIs (Math.random, Date formatting, number
rendering) are parameters of the embedding.
-/

namespace Proclens

/-- A JavaScript string, as its list of UTF-16 code units. -/
abbrev JStr := List Nat

/-- Convert a Lean string literal to its code-unit list. -/
def str (s : String) : JStr := s.toList.map Char.toNat

/-- JavaScript `String.prototype.toLowerCase` on one code unit (ASCII range,
which is all the repository's data uses). -/
def toLowerCode (n : Nat) : Nat := if 65 ≤ n ∧ n ≤ 90 then n + 32 else n

/-- Lowercase a whole string, as `s.toLowerCase()`. -/
def lowerStr (s : JStr) : JStr := s.map toLowerCode

/-- `leadsWith needle hay` holds when `needle` occurs at the start of `hay`. -/
def leadsWith : JStr → JStr → Bool
  | [], _ => true
  | _ :: _, [] => false
  | a :: as, b :: bs => a == b && leadsWith as bs

/-- JavaScript `hay.includes(needle)`: contiguous substring test. -/
def hasSub : JStr → JStr → Bool
  | [], needle => leadsWith needle []
  | h :: t, needle => leadsWith needle (h :: t) || hasSub t needle

/-- JavaScript `<` on strings: lexicographic comparison of code units. -/
def strLt : JStr → JStr → Bool
  | _, [] => false
  | [], _ :: _ => true
  | a :: as, b :: bs => decide (a < b) || (a == b && strLt as bs)

/-- Decimal digits of `n`, most significant first, with explicit structural
fuel so the kernel can evaluate it (`fuel = n + 1` always suffices). -/
def decDigitsAux : Nat → Nat → List Nat
  | 0, _ => []
  | fuel + 1, n => if n < 10 then [n] else decDigitsAux fuel (n / 10) ++ [n % 10]

/-- JavaScript `n.toString()` for a non-negative integer: decimal digits as
code units. -/
def decString (n : Nat) : JStr := (decDigitsAux (n + 1) n).map (fun d => 48 + d)

/-- Code units treated as whitespace by JavaScript `String.prototype.trim`
(the ASCII ones plus NBSP, line/paragraph separator and BOM). -/
def jsSpace (n : Nat) : Bool :=
  n == 9 || n == 10 || n == 11 || n == 12 || n == 13 || n == 32 ||
  n == 160 || n == 8232 || n == 8233 || n == 65279

/-- JavaScript `s.trim()`. -/
def trimJS (s : JStr) : JStr :=
  ((s.dropWhile jsSpace).reverse.dropWhile jsSpace).reverse

/-- One row of process metadata, as in `ProcessProvider.tsx`. -/
structure Process where
  pid : Nat
  name : JStr
  status : JStr
  cpuKb : ℚ
  memoryKb : ℚ
  user : JStr
  startTime : JStr
  threads : Nat
  priority : Nat
deriving DecidableEq

/-- The sortable columns (`keyof Process`). -/
inductive SortKey where
  | pid | name | status | cpuKb | memoryKb | user | startTime | threads | priority
deriving DecidableEq

/-- Sort direction. -/
inductive SortDir where
  | ascending | descending
deriving DecidableEq

/-- The sort configuration held by the table view. -/
structure SortConfig where
  key : SortKey
  direction : SortDir
deriving DecidableEq

/-- JavaScript `<` applied to the two records' values of the given column. -/
def keyLt (k : SortKey) (a b : Process) : Bool :=
  match k with
  | .pid => decide (a.pid < b.pid)
  | .name => strLt a.name b.name
  | .status => strLt a.status b.status
  | .cpuKb => decide (a.cpuKb < b.cpuKb)
  | .memoryKb => decide (a.memoryKb < b.memoryKb)
  | .user => strLt a.user b.user
  | .startTime => strLt a.startTime b.startTime
  | .threads => decide (a.threads < b.threads)
  | .priority => decide (a.priority < b.priority)

/-- `handleSort` from ProcessTable: clicking a column header selects that key,
flipping to descending only when the key was already sorted ascending. -/
def handleSort (cfg : SortConfig) (k : SortKey) : SortConfig :=
  if cfg.key = k ∧ cfg.direction = .ascending then ⟨k, .descending⟩ else ⟨k, .ascending⟩

/-- The record matches the search term when its name, decimal pid, status or
user contains it (`filteredProcesses` predicate; name/status/user lowercase
both sides, the pid test uses the raw term). -/
def matchesSearch (term : JStr) (p : Process) : Bool :=
  hasSub (lowerStr p.name) (lowerStr term) ||
  hasSub (decString p.pid) term ||
  hasSub (lowerStr p.status) (lowerStr term) ||
  hasSub (lowerStr p.user) (lowerStr term)

/-- `filteredProcesses` from ProcessTable. -/
def filteredProcesses (term : JStr) (ps : List Process) : List Process :=
  ps.filter (matchesSearch term)

/-- The search predicate as the spec words it: all four fields, including the
decimal pid, compared as lowercased substrings. -/
def matchesSearchSpec (term : JStr) (p : Process) : Bool :=
  hasSub (lowerStr p.name) (lowerStr term) ||
  hasSub (lowerStr (decString p.pid)) (lowerStr term) ||
  hasSub (lowerStr p.status) (lowerStr term) ||
  hasSub (lowerStr p.user) (lowerStr term)

/-- The comparator passed to `Array.prototype.sort` in `sortedProcesses`,
rendered as the "not greater" relation `compare a b ≤ 0` that a stable sort
realises. -/
def procLe (cfg : SortConfig) (a b : Process) : Bool :=
  match cfg.direction with
  | .ascending => !keyLt cfg.key b a
  | .descending => !keyLt cfg.key a b

/-- `sortedProcesses` from ProcessTable: a stable sort of the filtered list by
the configured comparator (ECMAScript `Array.prototype.sort` is stable). -/
def sortedProcesses (cfg : SortConfig) (l : List Process) : List Process :=
  l.mergeSort (procLe cfg)

/-- `itemsPerPage` from ProcessTable. -/
def itemsPerPage : Nat := 10

/-- `totalPages = Math.ceil(sortedProcesses.length / itemsPerPage)`. -/
def totalPages (l : List Process) : Nat :=
  (Int.ceil ((l.length : ℚ) / (itemsPerPage : ℚ))).toNat

/-- `paginatedProcesses`: `slice((currentPage-1)*10, currentPage*10)`. -/
def paginatedProcesses (page : Nat) (l : List Process) : List Process :=
  ((l.drop ((page - 1) * itemsPerPage)).take itemsPerPage)

/-- The PaginationPrevious click handler: `p => Math.max(1, p - 1)`. -/
def prevPage (p : Nat) : Nat := max 1 (p - 1)

/-- The PaginationNext click handler: `p => Math.min(totalPages, p + 1)`. -/
def nextPage (l : List Process) (p : Nat) : Nat := min (totalPages l) (p + 1)

/-- The page number rendered at window slot `i` (the branching of the
`Array.from` callback in ProcessTable's pagination). -/
def pageNumAt (tp c i : Nat) : Nat :=
  if tp ≤ 5 then i + 1
  else if c ≤ 3 then i + 1
  else if tp - 2 ≤ c then tp - 4 + i
  else c - 2 + i

/-- The visible page-number window: `Math.min(5, totalPages)` slots. -/
def pageWindow (tp c : Nat) : List Nat :=
  (List.range (min 5 tp)).map (pageNumAt tp c)

/-- First page number of the visible window. -/
def windowStart (tp c : Nat) : Nat :=
  if tp ≤ 5 then 1 else if c ≤ 3 then 1 else if tp - 2 ≤ c then tp - 4 else c - 2

/-- The view state held by ProcessTable (`useState` hooks). -/
structure ViewState where
  searchTerm : JStr
  sortConfig : SortConfig
  currentPage : Nat
deriving DecidableEq

/-- Initial view state: empty search, memory descending, page 1. -/
def initialView : ViewState :=
  { searchTerm := [], sortConfig := ⟨.memoryKb, .descending⟩, currentPage := 1 }

/-- The filtered-then-sorted list the table derives from a view state. -/
def sortedView (ps : List Process) (st : ViewState) : List Process :=
  sortedProcesses st.sortConfig (filteredProcesses st.searchTerm ps)

/-- The slice of rows shown for a view state. -/
def pageView (ps : List Process) (st : ViewState) : List Process :=
  paginatedProcesses st.currentPage (sortedView ps st)

/-- User interactions that mutate the view state. -/
inductive Event where
  | setSearch (t : JStr)
  | sortBy (k : SortKey)
  | prevClick
  | nextClick
  | pageClick (n : Nat)

/-- One view-state transition: each event runs the corresponding handler from
ProcessTable (search `onChange`, `handleSort`, the pagination `onClick`s). -/
def step (ps : List Process) (st : ViewState) : Event → ViewState
  | .setSearch t => { st with searchTerm := t }
  | .sortBy k => { st with sortConfig := handleSort st.sortConfig k }
  | .prevClick => { st with currentPage := prevPage st.currentPage }
  | .nextClick => { st with currentPage := nextPage (sortedView ps st) st.currentPage }
  | .pageClick n => { st with currentPage := n }

/-! ## ProcessProvider: data source, synthetic fallback, refresh update -/

/-- Aggregate machine resource snapshot, as in `ProcessProvider.tsx`. -/
structure SystemResources where
  totalCpuUsage : ℚ
  totalMemoryUsage : ℚ
  totalMemory : ℚ
  diskUsage : ℚ
  totalDisk : ℚ
  networkUsage : ℚ
deriving DecidableEq

/-- The fixed catalog of process names used by `generateMockProcesses`. -/
def processNames : List JStr :=
  [str "chrome", str "firefox", str "safari", str "edge", str "brave",
   str "node", str "npm", str "yarn", str "python", str "python3", str "java",
   str "javaw", str "dotnet", str "gcc", str "clang",
   str "vscode", str "code", str "idea", str "eclipse", str "atom",
   str "sublime_text", str "notepad++",
   str "terminal", str "cmd", str "powershell", str "bash", str "zsh",
   str "iTerm", str "hyper",
   str "spotify", str "spotify.exe", str "music", str "itunes", str "vlc",
   str "mplayer",
   str "slack", str "discord", str "teams", str "zoom", str "skype",
   str "telegram", str "signal",
   str "explorer", str "finder", str "nautilus", str "dolphin",
   str "systemd", str "launchd", str "svchost", str "services", str "wininit",
   str "lsass", str "ntoskrnl",
   str "docker", str "containerd", str "kubelet", str "kube-proxy",
   str "mysqld", str "postgres", str "mongod", str "redis-server",
   str "elasticsearch",
   str "nginx", str "apache2", str "httpd", str "iis",
   str "photoshop", str "illustrator", str "gimp", str "inkscape",
   str "blender",
   str "antivirus", str "defender", str "avast", str "norton", str "mcafee",
   str "dropbox", str "onedrive", str "gdrive",
   str "steam", str "epic", str "battle.net", str "origin"]

/-- The fixed catalog of users. -/
def mockUsers : List JStr :=
  [str "system", str "root", str "admin", str "user", str "guest",
   str "service", str "daemon", str "www-data", str "nobody"]

/-- The fixed catalog of statuses. -/
def mockStatuses : List JStr :=
  [str "running", str "sleeping", str "stopped", str "zombie", str "waiting",
   str "locked"]

/-- The fixed catalog of priorities. -/
def mockPriorities : List Nat := [0, 1, 2, 5, 10, 15, 20]

/-- `array[Math.floor(r * array.length)]`, the random-pick idiom of the mock
generator (out-of-range indices fall back to the default, as they never occur
for `0 ≤ r < 1`). -/
def pick {α : Type} (l : List α) (d : α) (r : ℚ) : α :=
  l.getD (Int.floor (r * l.length)).toNat d

/-- `parseFloat(x.toFixed(2))`: round to two decimal places (half away from
zero on the non-negative values produced here). -/
def round2 (q : ℚ) : ℚ := (Int.floor (q * 100 + 1 / 2) : ℚ) / 100

/-- `generateStartTime`: a timestamp between 5 minutes and 30 days before
`now`, rendered by the host's ISO formatter `iso` (a Date API parameter of
the embedding). -/
def genStartTime (now : ℤ) (iso : ℤ → JStr) (r : ℚ) : JStr :=
  iso (now - (Int.floor (r * (30 * 24 * 60 - 5)) + 5) * 60000)

/-- One synthetic process record, consuming the random stream `rand` at the
eight draws the generator makes for record `i`. -/
def genProcess (now : ℤ) (iso : ℤ → JStr) (rand : Nat → ℚ) (i : Nat) : Process :=
  { pid := 1000 + i,
    name := pick processNames [] (rand (8 * i)),
    status := pick mockStatuses [] (rand (8 * i + 2)),
    cpuKb := round2 (rand (8 * i + 4) * 100),
    memoryKb := round2 (rand (8 * i + 5) * 1000),
    user := pick mockUsers [] (rand (8 * i + 1)),
    startTime := genStartTime now iso (rand (8 * i + 6)),
    threads := (Int.floor (rand (8 * i + 7) * 20)).toNat + 1,
    priority := pick mockPriorities 0 (rand (8 * i + 3)) }

/-- The comparator `(a, b) => b.memoryKb - a.memoryKb` as the "not greater"
relation realised by the stable sort. -/
def memDescLe (a b : Process) : Bool := decide (b.memoryKb ≤ a.memoryKb)

/-- `generateMockProcesses`: 100 synthetic records sorted descending by
memory usage. -/
def generateMockProcesses (now : ℤ) (iso : ℤ → JStr) (rand : Nat → ℚ) : List Process :=
  ((List.range 100).map (genProcess now iso rand)).mergeSort memDescLe

/-- `generateMockSystemResources`: random usage figures, fixed capacities. -/
def generateMockSystemResources (rand : Nat → ℚ) : SystemResources :=
  { totalCpuUsage := round2 (rand 0 * 100),
    totalMemoryUsage := round2 (rand 1 * 16000),
    totalMemory := 32000,
    diskUsage := round2 (rand 2 * 500000),
    totalDisk := 1000000,
    networkUsage := round2 (rand 3 * 100) }

/-- `fetchProcesses`: the backend's answer when it is reachable and
successful, or the synthetic fallback otherwise. -/
def fetchProcesses (net : Option (List Process)) (now : ℤ) (iso : ℤ → JStr)
    (rand : Nat → ℚ) : List Process :=
  match net with
  | some l => l
  | none => generateMockProcesses now iso rand

/-- The `setProcesses` updater inside `refreshProcesses`: keep the previous
list unless it was empty or the first five entries changed (the code compares
`JSON.stringify` of the two five-entry slices, which for these records agrees
with structural equality). -/
def updateProcesses (prev fetched : List Process) : List Process :=
  if prev = [] ∨ fetched.take 5 ≠ prev.take 5 then fetched else prev

/-! ## QueryInput: prompt construction and submission -/

/-- The JSON body POSTed to `/api/generate` by `queryOllama`. -/
structure OllamaPayload where
  model : JStr
  prompt : JStr
  stream : Bool
  temperature : ℚ
  maxTokens : Nat
deriving DecidableEq

/-- `Array.prototype.join(sep)`. -/
def joinSep (sep : JStr) : List JStr → JStr
  | [] => []
  | [x] => x
  | x :: y :: xs => x ++ sep ++ joinSep sep (y :: xs)

/-- The per-process template literal of `handleSubmit`'s context builder;
`showQ` is the host's number-to-string conversion for the float fields. -/
def procLine (showQ : ℚ → JStr) (p : Process) : JStr :=
  str "PID: " ++ decString p.pid ++ str ", Name: " ++ p.name ++
  str ", Status: " ++ p.status ++ str ", CPU KB: " ++ showQ p.cpuKb ++
  str ", Memory KB: " ++ showQ p.memoryKb

/-- The context string built in `handleSubmit`: a "System processes: " header
followed by the per-process segments joined with ", ". -/
def buildContext (showQ : ℚ → JStr) (ps : List Process) : JStr :=
  str "System processes: " ++ joinSep (str ", ") (ps.map (procLine showQ))

/-- The payload `queryOllama` sends: model "phi", `context + "\n" + query`,
non-streaming, temperature 0.7, max 256 tokens. -/
def buildPayload (query context : JStr) : OllamaPayload :=
  { model := str "phi",
    prompt := context ++ [10] ++ query,
    stream := false,
    temperature := 7 / 10,
    maxTokens := 256 }

/-- The state QueryInput reads and writes: the input field and the chat
history held by the provider. -/
structure QueryState where
  query : JStr
  chatHistory : List JStr
deriving DecidableEq

/-- The observable outcome of one `handleSubmit` run. -/
structure SubmitResult where
  state : QueryState
  request : Option OllamaPayload
  warnings : Nat
  errorNotices : Nat
deriving DecidableEq

/-- `handleSubmit` from QueryInput: reject blank input with one warning and
no request; otherwise send the built payload and either append the reply and
clear the field (success) or surface one error notice and keep everything
(failure).  `res` is the inference endpoint's answer to the request. -/
def handleSubmit (showQ : ℚ → JStr) (ps : List Process) (st : QueryState)
    (res : Except Unit JStr) : SubmitResult :=
  if trimJS st.query = [] then
    { state := st, request := none, warnings := 1, errorNotices := 0 }
  else
    let payload := buildPayload st.query (buildContext showQ ps)
    match res with
    | .ok reply =>
      { state := { query := [], chatHistory := st.chatHistory ++ [reply] },
        request := some payload, warnings := 0, errorNotices := 0 }
    | .error _ =>
      { state := st, request := some payload, warnings := 0, errorNotices := 1 }

/-- The prompt shape claimed by the spec, for comparison: the serialization
with one line per process (newline-joined segments), then a newline, then the
query. -/
def specOneLinePerProcessPrompt (showQ : ℚ → JStr) (ps : List Process)
    (query : JStr) : JStr :=
  joinSep [10] (ps.map (procLine showQ)) ++ [10] ++ query

/-! ## Concrete fixtures used by witnesses and counterexamples -/

/-- A fixture record. -/
def procA : Process :=
  { pid := 1, name := str "node", status := str "running", cpuKb := 1,
    memoryKb := 2, user := str "root", startTime := str "t", threads := 1,
    priority := 0 }

/-- A second fixture record with the same name as `procA`. -/
def procB : Process :=
  { pid := 2, name := str "node", status := str "sleeping", cpuKb := 1,
    memoryKb := 3, user := str "root", startTime := str "t", threads := 1,
    priority := 0 }

/-- A fixture number renderer (host number-to-string stand-in). -/
def demoShow : ℚ → JStr := fun _ => str "0"

/-- Fixture records named "a0" … "a9". -/
def mkDemo (i : Nat) : Process :=
  { pid := i, name := [97, 48 + i], status := str "running", cpuKb := 0,
    memoryKb := (i : ℚ), user := str "root", startTime := str "t",
    threads := 1, priority := 0 }

/-- A fixture record named "x", the only one matching the search "x". -/
def demoX : Process :=
  { pid := 100, name := [120], status := str "running", cpuKb := 0,
    memoryKb := 0, user := str "root", startTime := str "t", threads := 1,
    priority := 0 }

/-- An eleven-record fixture list (two pages at page size 10). -/
def demo11 : List Process := (List.range 10).map mkDemo ++ [demoX]

/-- The view state reached from the initial one by clicking next (to page 2)
and then typing "x" into the search box. -/
def reachedState : ViewState :=
  step demo11 (step demo11 initialView .nextClick) (.setSearch [120])

/-! ## String lemmas -/

theorem hasSub_nil (hay : JStr) : hasSub hay [] = true := by
  cases hay <;> simp [hasSub, leadsWith]

theorem toLowerCode_digit (d : Nat) (h1 : 48 ≤ d) (h2 : d ≤ 57) :
    toLowerCode d = d := by
  simp only [toLowerCode]
  split <;> omega

theorem beq_toLowerCode_digit (c d : Nat) (h1 : 48 ≤ d) (h2 : d ≤ 57) :
    (toLowerCode c == d) = (c == d) := by
  simp only [toLowerCode]
  split
  · rw [Bool.eq_iff_iff]
    simp only [beq_iff_eq]
    omega
  · rfl

theorem leadsWith_lower_digits (t : JStr) :
    ∀ hay : JStr, (∀ x ∈ hay, 48 ≤ x ∧ x ≤ 57) →
    leadsWith (lowerStr t) hay = leadsWith t hay := by
  induction t with
  | nil => intro hay _; rfl
  | cons c cs ih =>
    intro hay hd
    cases hay with
    | nil => rfl
    | cons d ds =>
      have hdig := hd d (by simp)
      simp only [lowerStr, List.map_cons, leadsWith]
      rw [beq_toLowerCode_digit c d hdig.1 hdig.2]
      have := ih ds (fun x hx => hd x (by simp [hx]))
      rw [← this]; rfl

theorem hasSub_lower_digits (hay : JStr) (t : JStr)
    (hd : ∀ x ∈ hay, 48 ≤ x ∧ x ≤ 57) :
    hasSub hay (lowerStr t) = hasSub hay t := by
  induction hay with
  | nil => simp [hasSub, leadsWith_lower_digits t [] (by simp)]
  | cons h hs ih =>
    simp only [hasSub]
    rw [leadsWith_lower_digits t (h :: hs) hd,
        ih (fun x hx => hd x (by simp [hx]))]

theorem decDigitsAux_lt (fuel : Nat) :
    ∀ n, ∀ d ∈ decDigitsAux fuel n, d < 10 := by
  induction fuel with
  | zero => intro n d hd; simp [decDigitsAux] at hd
  | succ fuel ih =>
    intro n d hd
    simp only [decDigitsAux] at hd
    split at hd
    · simp at hd; omega
    · rcases List.mem_append.mp hd with h | h
      · exact ih _ d h
      · simp at h; omega

theorem decString_digits (n : Nat) :
    ∀ x ∈ decString n, 48 ≤ x ∧ x ≤ 57 := by
  intro x hx
  simp only [decString, List.mem_map] at hx
  obtain ⟨d, hd, rfl⟩ := hx
  have := decDigitsAux_lt (n + 1) n d hd
  omega

theorem lowerStr_decString (n : Nat) : lowerStr (decString n) = decString n := by
  simp only [lowerStr]
  apply List.map_congr_left ?_ |>.trans (List.map_id _)
  intro d hd
  exact toLowerCode_digit d (decString_digits n d hd).1 (decString_digits n d hd).2

theorem matchesSearch_eq_spec (term : JStr) (p : Process) :
    matchesSearch term p = matchesSearchSpec term p := by
  simp only [matchesSearch, matchesSearchSpec, lowerStr_decString]
  rw [hasSub_lower_digits (decString p.pid) term (decString_digits p.pid)]

theorem matchesSearch_nil (p : Process) : matchesSearch [] p = true := by
  simp [matchesSearch, lowerStr, hasSub_nil]

/-! ## Order lemmas for the sort comparators -/

theorem strLt_irrefl : ∀ a : JStr, strLt a a = false
  | [] => by simp [strLt]
  | a :: as => by simp [strLt, strLt_irrefl as]

theorem strLt_trans : ∀ a b c : JStr,
    strLt a b = true → strLt b c = true → strLt a c = true
  | _, b, [], _, h2 => absurd h2 (by simp [strLt])
  | _, [], _ :: _, h1, _ => absurd h1 (by simp [strLt])
  | [], _ :: _, _ :: _, _, _ => by simp [strLt]
  | a :: as, b :: bs, c :: cs, h1, h2 => by
    simp only [strLt, Bool.or_eq_true, Bool.and_eq_true, decide_eq_true_eq,
      beq_iff_eq] at h1 h2 ⊢
    rcases h1 with h1 | ⟨rfl, h1⟩
    · rcases h2 with h2 | ⟨rfl, h2⟩
      · exact Or.inl (Nat.lt_trans h1 h2)
      · exact Or.inl h1
    · rcases h2 with h2 | ⟨rfl, h2⟩
      · exact Or.inl h2
      · exact Or.inr ⟨rfl, strLt_trans as bs cs h1 h2⟩

theorem strLt_tri : ∀ a b : JStr, strLt a b = true ∨ strLt b a = true ∨ a = b
  | [], [] => Or.inr (Or.inr rfl)
  | [], _ :: _ => Or.inl (by simp [strLt])
  | _ :: _, [] => Or.inr (Or.inl (by simp [strLt]))
  | a :: as, b :: bs => by
    rcases Nat.lt_trichotomy a b with h | h | h
    · exact Or.inl (by simp [strLt, h])
    · subst h
      rcases strLt_tri as bs with h | h | h
      · exact Or.inl (by simp [strLt, h])
      · exact Or.inr (Or.inl (by simp [strLt, h]))
      · exact Or.inr (Or.inr (by rw [h]))
    · exact Or.inr (Or.inl (by simp [strLt, h]))

theorem strLt_asymm (a b : JStr) (h : strLt a b = true) : strLt b a = false := by
  by_contra hc
  rw [Bool.not_eq_false] at hc
  have := strLt_trans a b a h hc
  simp [strLt_irrefl] at this

theorem strLt_negtrans (a b c : JStr) (h1 : strLt a b = false)
    (h2 : strLt b c = false) : strLt a c = false := by
  by_contra hac
  rw [Bool.not_eq_false] at hac
  rcases strLt_tri a b with hab | hab | hab
  · exact absurd hab (by simp [h1])
  · rcases strLt_tri b c with hbc | hbc | hbc
    · exact absurd hbc (by simp [h2])
    · have h3 := strLt_trans c b a hbc hab
      have := strLt_trans a c a hac h3
      simp [strLt_irrefl] at this
    · subst hbc
      have := strLt_trans a b a hac hab
      simp [strLt_irrefl] at this
  · subst hab
    exact absurd hac (by simp [h2])

theorem keyLt_asymm (k : SortKey) (a b : Process) (h : keyLt k a b = true) :
    keyLt k b a = false := by
  cases k <;>
    simp only [keyLt, decide_eq_true_eq, decide_eq_false_iff_not, not_lt] at h ⊢ <;>
    first
      | omega
      | exact le_of_lt h
      | exact strLt_asymm _ _ h

theorem keyLt_negtrans (k : SortKey) (a b c : Process)
    (h1 : keyLt k a b = false) (h2 : keyLt k b c = false) :
    keyLt k a c = false := by
  cases k <;>
    simp only [keyLt, decide_eq_false_iff_not, not_lt] at h1 h2 ⊢ <;>
    first
      | omega
      | exact le_trans h2 h1
      | exact strLt_negtrans _ _ _ h1 h2

theorem procLe_trans (cfg : SortConfig) :
    ∀ a b c : Process, procLe cfg a b → procLe cfg b c → procLe cfg a c := by
  intro a b c h1 h2
  rcases cfg with ⟨k, dir⟩
  cases dir <;>
    simp only [procLe, Bool.not_eq_true'] at h1 h2 ⊢
  · exact keyLt_negtrans k c b a h2 h1
  · exact keyLt_negtrans k a b c h1 h2

theorem procLe_total (cfg : SortConfig) :
    ∀ a b : Process, procLe cfg a b || procLe cfg b a := by
  intro a b
  rcases cfg with ⟨k, dir⟩
  rcases hab : keyLt k a b with _ | _
  · cases dir <;> simp [procLe, hab]
  · have := keyLt_asymm k a b hab
    cases dir <;> simp [procLe, hab, this]

theorem memDescLe_trans :
    ∀ a b c : Process, memDescLe a b → memDescLe b c → memDescLe a c := by
  intro a b c h1 h2
  simp only [memDescLe, decide_eq_true_eq] at h1 h2 ⊢
  exact le_trans h2 h1

theorem memDescLe_total : ∀ a b : Process, memDescLe a b || memDescLe b a := by
  intro a b
  simp only [memDescLe]
  rcases le_total b.memoryKb a.memoryKb with h | h <;> simp [h]

/-! ## Claim theorems -/

/-- C1: for every process list and search term, the table's filtered sequence
is exactly the records whose name, decimal pid, status or user contains the
term as a case-insensitive substring, in original order (stated as equality
with the filter by the case-insensitive predicate), and the empty term leaves
the list unfiltered. -/
theorem filteredProcesses_spec (ps : List Process) (term : JStr) :
    filteredProcesses term ps = ps.filter (matchesSearchSpec term) ∧
    filteredProcesses [] ps = ps := by
  constructor
  · exact List.filter_congr (fun p _ => matchesSearch_eq_spec term p)
  · exact List.filter_eq_self.mpr (fun p _ => matchesSearch_nil p)

/-- C2: sorting the filtered list is stable — any two records with
comparator-equal sort keys keep their filtered-list order — and toggling a
sort key (from any configuration not already ascending on that key) yields
first the ascending, then the descending order of that key. -/
theorem sortedProcesses_stable_toggle :
    (∀ (cfg : SortConfig) (term : JStr) (ps : List Process) (a b : Process),
        List.Sublist [a, b] (filteredProcesses term ps) →
        keyLt cfg.key a b = false → keyLt cfg.key b a = false →
        List.Sublist [a, b] (sortedProcesses cfg (filteredProcesses term ps))) ∧
    (∀ (cfg : SortConfig) (k : SortKey) (l : List Process),
        ¬(cfg.key = k ∧ cfg.direction = .ascending) →
        handleSort cfg k = ⟨k, .ascending⟩ ∧
        handleSort (handleSort cfg k) k = ⟨k, .descending⟩ ∧
        (sortedProcesses ⟨k, .ascending⟩ l).Pairwise
          (fun a b => keyLt k b a = false) ∧
        (sortedProcesses ⟨k, .descending⟩ l).Pairwise
          (fun a b => keyLt k a b = false)) := by
  constructor
  · intro cfg term ps a b hsub h1 h2
    have hab : procLe cfg a b := by
      rcases cfg with ⟨k, dir⟩
      cases dir <;> simp_all [procLe]
    exact List.pair_sublist_mergeSort (procLe_trans cfg) (procLe_total cfg)
      hab hsub
  · intro cfg k l hna
    have h1 : handleSort cfg k = ⟨k, .ascending⟩ := if_neg hna
    refine ⟨h1, ?_, ?_, ?_⟩
    · rw [h1]
      exact if_pos ⟨rfl, rfl⟩
    · have hs := List.sorted_mergeSort
        (procLe_trans ⟨k, .ascending⟩) (procLe_total ⟨k, .ascending⟩) l
      exact hs.imp (fun h => by simpa [procLe, Bool.not_eq_true'] using h)
    · have hs := List.sorted_mergeSort
        (procLe_trans ⟨k, .descending⟩) (procLe_total ⟨k, .descending⟩) l
      exact hs.imp (fun h => by simpa [procLe, Bool.not_eq_true'] using h)

/-! ## Pagination lemmas -/

theorem totalPages_eq (l : List Process) : totalPages l = (l.length + 9) / 10 := by
  obtain ⟨n, hn⟩ : ∃ n, n = (l.length + 9) / 10 := ⟨_, rfl⟩
  have h : Int.ceil ((l.length : ℚ) / (itemsPerPage : ℚ)) = (n : ℤ) := by
    rw [Int.ceil_eq_iff]
    have h1 : ((l.length : ℚ)) ≤ 10 * (n : ℚ) := by
      have hx : ((l.length : ℕ) : ℚ) ≤ ((10 * n : ℕ) : ℚ) :=
        Nat.cast_le.mpr (by omega)
      push_cast at hx
      linarith
    have h2 : 10 * (n : ℚ) < (l.length : ℚ) + 10 := by
      have hx : ((10 * n : ℕ) : ℚ) < ((l.length + 10 : ℕ) : ℚ) :=
        Nat.cast_lt.mpr (by omega)
      push_cast at hx
      linarith
    constructor
    · rw [show (itemsPerPage : ℚ) = 10 by norm_num [itemsPerPage],
        lt_div_iff₀ (by norm_num : (0 : ℚ) < 10)]
      push_cast
      linarith
    · rw [show (itemsPerPage : ℚ) = 10 by norm_num [itemsPerPage],
        div_le_iff₀ (by norm_num : (0 : ℚ) < 10)]
      push_cast
      linarith
  rw [totalPages, h]
  omega

theorem take_min_length (l : List Process) (p : Nat) :
    (paginatedProcesses p l).length = min 10 (l.length - (p - 1) * 10) := by
  simp [paginatedProcesses, itemsPerPage, List.length_take, List.length_drop]

theorem pageWindow_eq_range (tp c : Nat) :
    pageWindow tp c = List.range' (windowStart tp c) (min 5 tp) := by
  rw [pageWindow, List.range'_eq_map_range]
  apply List.map_congr_left
  intro i _
  unfold pageNumAt windowStart
  split_ifs <;> omega

/-- C3: with page size 10, the page count is the ceiling of length over 10,
page `p` is the slice from index `10*(p-1)` to `10*p`, the last page holds
`length mod 10` rows (10 when the length is a positive multiple of 10), and
the previous/next handlers keep the page within `[1, totalPages]`. -/
theorem pagination_spec (l : List Process) (p : Nat) (h1 : 1 ≤ p)
    (h2 : p ≤ totalPages l) :
    totalPages l = (l.length + 9) / 10 ∧
    paginatedProcesses p l = (l.take (10 * p)).drop (10 * (p - 1)) ∧
    (p = totalPages l →
      (paginatedProcesses p l).length =
        if l.length % 10 = 0 then 10 else l.length % 10) ∧
    1 ≤ prevPage p ∧ prevPage p ≤ totalPages l ∧
    1 ≤ nextPage l p ∧ nextPage l p ≤ totalPages l := by
  rw [totalPages_eq] at h2 ⊢
  refine ⟨rfl, ?_, ?_, ?_, ?_, ?_, ?_⟩
  · rw [paginatedProcesses, List.take_drop]
    have e1 : (p - 1) * itemsPerPage = 10 * (p - 1) := by
      simp [itemsPerPage]; omega
    have e2 : (p - 1) * itemsPerPage + itemsPerPage = 10 * p := by
      simp [itemsPerPage]; omega
    rw [e2, ← e1]
  · intro hp
    rw [take_min_length l p, Nat.min_def]
    split_ifs <;> omega
  · simp [prevPage]
  · simp only [prevPage]
    omega
  · simp only [nextPage]
    rw [totalPages_eq]
    omega
  · simp only [nextPage]
    rw [totalPages_eq]
    omega

/-- C9: for a current page within `[1, totalPages]`, the page-number window
is a consecutive run of `min 5 totalPages` page numbers inside `[1, tp]`, it
contains the current page, is centered on it away from the boundaries, and
clamps to `[1, 5]` or `[tp-4, tp]` at the boundaries. -/
theorem pageWindow_spec (tp c : Nat) (h1 : 1 ≤ c) (h2 : c ≤ tp) :
    (pageWindow tp c).length = min 5 tp ∧
    pageWindow tp c = List.range' (windowStart tp c) (min 5 tp) ∧
    1 ≤ windowStart tp c ∧
    windowStart tp c + min 5 tp - 1 ≤ tp ∧
    c ∈ pageWindow tp c ∧
    (5 < tp → 3 < c → c < tp - 2 → pageWindow tp c = List.range' (c - 2) 5) ∧
    (5 < tp → c ≤ 3 → pageWindow tp c = List.range' 1 5) ∧
    (5 < tp → tp - 2 ≤ c → pageWindow tp c = List.range' (tp - 4) 5) := by
  have hlo : windowStart tp c ≤ c := by
    unfold windowStart
    split_ifs <;> omega
  have hhi : c < windowStart tp c + min 5 tp := by
    unfold windowStart
    split_ifs <;> omega
  refine ⟨?_, pageWindow_eq_range tp c, ?_, ?_, ?_, ?_, ?_, ?_⟩
  · rw [pageWindow_eq_range, List.length_range']
  · unfold windowStart
    split_ifs <;> omega
  · unfold windowStart
    split_ifs <;> omega
  · rw [pageWindow_eq_range, List.mem_range']
    exact ⟨c - windowStart tp c, by omega, by omega⟩
  · intro ha hb hc
    rw [pageWindow_eq_range]
    have e1 : windowStart tp c = c - 2 := by
      unfold windowStart
      split_ifs <;> omega
    have e2 : min 5 tp = 5 := by omega
    rw [e1, e2]
  · intro ha hb
    rw [pageWindow_eq_range]
    have e1 : windowStart tp c = 1 := by
      unfold windowStart
      split_ifs <;> omega
    have e2 : min 5 tp = 5 := by omega
    rw [e1, e2]
  · intro ha hb
    rw [pageWindow_eq_range]
    have e1 : windowStart tp c = tp - 4 := by
      unfold windowStart
      split_ifs <;> omega
    have e2 : min 5 tp = 5 := by omega
    rw [e1, e2]

/-- C2 witness: stability and the toggle at concrete inputs. -/
theorem sortedProcesses_stable_toggle_witness :
    (keyLt SortKey.name procA procB = false ∧
     keyLt SortKey.name procB procA = false ∧
     List.Sublist [procA, procB]
       (sortedProcesses ⟨.name, .descending⟩ (filteredProcesses [] [procA, procB]))) ∧
    (¬((⟨.pid, .descending⟩ : SortConfig).key = SortKey.name ∧
       (⟨.pid, .descending⟩ : SortConfig).direction = .ascending) ∧
     handleSort ⟨.pid, .descending⟩ .name = ⟨.name, .ascending⟩) :=
  ⟨⟨by decide, by decide,
    sortedProcesses_stable_toggle.1 ⟨.name, .descending⟩ [] [procA, procB]
      procA procB (List.Sublist.refl _) (by decide) (by decide)⟩,
   ⟨by decide,
    (sortedProcesses_stable_toggle.2 ⟨.pid, .descending⟩ .name [] (by decide)).1⟩⟩

/-- C3 witness: the pagination facts at an eleven-record list and page 2. -/
theorem pagination_spec_witness :
    1 ≤ 2 ∧ 2 ≤ totalPages demo11 ∧
    totalPages demo11 = (demo11.length + 9) / 10 := by
  have h2 : 2 ≤ totalPages demo11 := by
    rw [totalPages_eq]
    decide
  exact ⟨by omega, h2, (pagination_spec demo11 2 (by omega) h2).1⟩

/-- C4: under network failure the data source yields exactly 100 synthetic
records sorted descending by memoryKb, and synthetic resource summaries have
totalMemory 32000 and totalDisk 1000000 identically across invocations. -/
theorem mock_fallback_spec (now : ℤ) (iso : ℤ → JStr) (rand r1 r2 : Nat → ℚ) :
    (fetchProcesses none now iso rand).length = 100 ∧
    (fetchProcesses none now iso rand).Pairwise
      (fun a b => b.memoryKb ≤ a.memoryKb) ∧
    (generateMockSystemResources r1).totalMemory = 32000 ∧
    (generateMockSystemResources r1).totalDisk = 1000000 ∧
    (generateMockSystemResources r1).totalMemory =
      (generateMockSystemResources r2).totalMemory ∧
    (generateMockSystemResources r1).totalDisk =
      (generateMockSystemResources r2).totalDisk := by
  refine ⟨?_, ?_, rfl, rfl, rfl, rfl⟩
  · simp [fetchProcesses, generateMockProcesses, List.length_mergeSort]
  · have hs := List.sorted_mergeSort memDescLe_trans memDescLe_total
      ((List.range 100).map (genProcess now iso rand))
    exact hs.imp (fun h => by simpa [memDescLe] using h)

/-- C5: the refresh update keeps the held list when it is non-empty and the
first five fetched entries equal the first five held ones, and otherwise
replaces it wholesale by the fetched list. -/
theorem updateProcesses_spec (prev fetched : List Process) :
    (prev ≠ [] → fetched.take 5 = prev.take 5 →
      updateProcesses prev fetched = prev) ∧
    (prev = [] ∨ fetched.take 5 ≠ prev.take 5 →
      updateProcesses prev fetched = fetched) := by
  constructor
  · intro h1 h2
    rw [updateProcesses, if_neg]
    push_neg
    exact ⟨h1, h2⟩
  · intro h
    rw [updateProcesses, if_pos h]

/-- C5 witness: retention and replacement at concrete lists. -/
theorem updateProcesses_spec_witness :
    ([procA] ≠ ([] : List Process) ∧
     [procA, procB].take 5 = [procA, procB].take 5 ∧
     updateProcesses [procA, procB] [procA, procB] = [procA, procB]) ∧
    updateProcesses [] [procA] = [procA] :=
  ⟨⟨by simp, rfl,
    (updateProcesses_spec [procA, procB] [procA, procB]).1 (by simp) rfl⟩,
   (updateProcesses_spec [] [procA]).2 (Or.inl rfl)⟩

/-- C6 counterexample: for a two-record list the prompt the flow actually
sends joins the per-process segments with ", " into a single line, so it is
not the one-line-per-process serialization followed by a newline and the
query that the claim describes. -/
theorem prompt_one_line_cex :
    (handleSubmit demoShow [procA, procB] ⟨ str "hi", []⟩ (.ok [])).request =
      some (buildPayload (str "hi") (buildContext demoShow [procA, procB])) ∧
    (buildPayload (str "hi") (buildContext demoShow [procA, procB])).prompt ≠
      specOneLinePerProcessPrompt demoShow [procA, procB] (str "hi") ∧
    (buildPayload (str "hi") (buildContext demoShow [procA, procB])).prompt.count 10 = 1 ∧
    (specOneLinePerProcessPrompt demoShow [procA, procB] (str "hi")).count 10 = 2 := by
  refine ⟨?_, by decide, by decide, by decide⟩
  rw [handleSubmit, if_neg (by decide)]

/-- C6 amended: for every non-blank query the request sent is the payload
whose prompt is the single-line context — "System processes: " followed by
the per-process pid/name/status/cpu/memory segments joined by ", " — then a
newline, then the query text, with the non-streaming flag set. -/
theorem prompt_spec_amended (showQ : ℚ → JStr) (ps : List Process)
    (st : QueryState) (res : Except Unit JStr) (h : trimJS st.query ≠ []) :
    (handleSubmit showQ ps st res).request =
      some (buildPayload st.query (buildContext showQ ps)) ∧
    (buildPayload st.query (buildContext showQ ps)).prompt =
      str "System processes: " ++
        joinSep (str ", ") (ps.map (procLine showQ)) ++ [10] ++ st.query ∧
    (buildPayload st.query (buildContext showQ ps)).stream = false := by
  refine ⟨?_, rfl, rfl⟩
  rw [handleSubmit, if_neg h]
  cases res <;> rfl

/-- C6 amended witness: the payload at a concrete list and query. -/
theorem prompt_spec_amended_witness :
    trimJS (str "hi") ≠ [] ∧
    (handleSubmit demoShow [procA] ⟨ str "hi", []⟩ (.ok [])).request =
      some (buildPayload (str "hi") (buildContext demoShow [procA])) :=
  ⟨by decide,
   (prompt_spec_amended demoShow [procA] ⟨ str "hi", []⟩ (.ok []) (by decide)).1⟩

/-- C7: a blank (empty or whitespace-only) query produces no request, no chat
entry, exactly one warning, and leaves the state unchanged. -/
theorem submit_blank_spec (showQ : ℚ → JStr) (ps : List Process)
    (st : QueryState) (res : Except Unit JStr) (h : trimJS st.query = []) :
    handleSubmit showQ ps st res =
      { state := st, request := none, warnings := 1, errorNotices := 0 } := by
  rw [handleSubmit, if_pos h]

/-- C7 witness: a whitespace-only query at concrete state. -/
theorem submit_blank_spec_witness :
    trimJS (str "  ") = [] ∧
    handleSubmit demoShow [procA] ⟨ str "  ", [str "old"]⟩ (.error ()) =
      { state := ⟨ str "  ", [str "old"]⟩, request := none, warnings := 1,
        errorNotices := 0 } :=
  ⟨by decide,
   submit_blank_spec demoShow [procA] ⟨ str "  ", [str "old"]⟩ (.error ())
     (by decide)⟩

/-- C8: for a non-blank query, a successful inference call appends exactly
the reply to the chat history and clears the input; a failed call appends
nothing, surfaces one error notice, and keeps the input text. -/
theorem submit_outcome_spec (showQ : ℚ → JStr) (ps : List Process)
    (st : QueryState) (reply : JStr) (e : Unit)
    (h : trimJS st.query ≠ []) :
    (handleSubmit showQ ps st (.ok reply)).state.chatHistory =
      st.chatHistory ++ [reply] ∧
    (handleSubmit showQ ps st (.ok reply)).state.query = [] ∧
    (handleSubmit showQ ps st (.ok reply)).warnings = 0 ∧
    (handleSubmit showQ ps st (.error e)).state.chatHistory = st.chatHistory ∧
    (handleSubmit showQ ps st (.error e)).errorNotices = 1 ∧
    (handleSubmit showQ ps st (.error e)).state.query = st.query := by
  simp [handleSubmit, h]

/-- C8 witness: both outcomes at a concrete non-blank query. -/
theorem submit_outcome_spec_witness :
    trimJS (str "hi") ≠ [] ∧
    (handleSubmit demoShow [procA] ⟨ str "hi", [str "old"]⟩
        (.ok (str "fine"))).state.chatHistory = [str "old"] ++ [str "fine"] :=
  ⟨by decide,
   (submit_outcome_spec demoShow [procA] ⟨ str "hi", [str "old"]⟩
     (str "fine") () (by decide)).1⟩

/-- C9 witness: the window bounds at ten pages, current page five. -/
theorem pageWindow_spec_witness :
    1 ≤ 5 ∧ 5 ≤ 10 ∧ 5 ∈ pageWindow 10 5 :=
  ⟨by omega, by omega, (pageWindow_spec 10 5 (by omega) (by omega)).2.2.2.2.1⟩

/-- C10: typing in the search box never changes the current page, and the
state reached by going to page 2 and then searching "x" over an
eleven-record list shows an empty page although the filtered list is
non-empty (its matches live on page 1). -/
theorem search_keeps_page :
    (∀ (ps : List Process) (st : ViewState) (t : JStr),
      (step ps st (.setSearch t)).currentPage = st.currentPage) ∧
    reachedState.currentPage = 2 ∧
    filteredProcesses reachedState.searchTerm demo11 ≠ [] ∧
    pageView demo11 reachedState = [] := by
  have hflt : filteredProcesses [] demo11 = demo11 :=
    List.filter_eq_self.mpr (fun p _ => matchesSearch_nil p)
  have hlen : (sortedView demo11 initialView).length = 11 := by
    simp only [sortedView, sortedProcesses, initialView, List.length_mergeSort]
    rw [hflt]
    decide
  have htp : totalPages (sortedView demo11 initialView) = 2 := by
    rw [totalPages_eq, hlen]
  have hcp : reachedState.currentPage = 2 := by
    show nextPage (sortedView demo11 initialView) initialView.currentPage = 2
    rw [nextPage, htp]
    decide
  have hf : filteredProcesses [120] demo11 = [demoX] := rfl
  refine ⟨fun ps st t => rfl, hcp, ?_, ?_⟩
  · rw [show reachedState.searchTerm = [120] from rfl, hf]
    simp
  · have hsv : sortedView demo11 reachedState = [demoX] := by
      rw [sortedView, show reachedState.searchTerm = [120] from rfl, hf]
      simp [sortedProcesses]
    rw [pageView, hcp, hsv]
    rfl

end Proclens
